import Mathlib

/-!
Shallow embedding of the reference-discovery ("referee") module of the
wd-infernal service, and proofs about its statement selection, search-pattern
generation, matching, language guessing and merge steps.

Modelling conventions:
* Rust `String` comparison (`Ord`) is modelled through Lean's linear order on
  `String`; UTF-8 byte-lexicographic order agrees with the codepoint
  lexicographic order, so the two coincide.
* Network and entity-container I/O is abstracted: an entity lookup becomes a
  function `String → Option WEntity` (`none` models "entity not available",
  which the source treats as an empty result), and the regex search over a
  candidate page becomes a function parameter
  `matcher : String → String → Option TextPart` standing for
  `Regex::new` + `captures` (returning `none` both for "no match" and for a
  pattern that fails to compile).
* Rust code that can panic is modelled with `Option`: in particular
  `merge_cuc_candidates` starts with `input.remove(0)`, which panics on an
  empty vector, so the model returns `none` for the empty list.
* `Vec::sort` (a stable sort under a total preorder) is modelled with
  `List.insertionSort`, which is also stable; `Vec::dedup` (removal of
  consecutive duplicates) is modelled with `List.destutter (· ≠ ·)`.
-/

/-! Three-way comparisons, mirroring Rust's `Ord` chains. -/

/-- Comparison induced by a linear order, as `Ord::cmp` on Rust strings. -/
def linCmp {α : Type} [LinearOrder α] (a b : α) : Ordering :=
  if a < b then Ordering.lt else if a = b then Ordering.eq else Ordering.gt

/-- Codepoint comparison of characters. -/
def charCmp (a b : Char) : Ordering := linCmp a.toNat b.toNat

/-- Lexicographic comparison of character lists. -/
def charsCmp : List Char → List Char → Ordering
  | [], [] => Ordering.eq
  | [], _ :: _ => Ordering.lt
  | _ :: _, [] => Ordering.gt
  | a :: as, b :: bs => (charCmp a b).then (charsCmp as bs)

/-- String comparison used by the derived `Ord` implementations:
lexicographic on characters. UTF-8 byte order, which Rust's `Ord` for
`String` uses, agrees with this codepoint order. -/
def strCmp (a b : String) : Ordering := charsCmp a.data b.data

/-- Comparison on `Option` with `none` first, as Rust's `Ord` for `Option`. -/
def optCmp {α : Type} (f : α → α → Ordering) : Option α → Option α → Ordering
  | none, none => Ordering.eq
  | none, some _ => Ordering.lt
  | some _, none => Ordering.gt
  | some a, some b => f a b

/-- Lexicographic comparison of a pair from comparisons of the components. -/
def pairCmp {α β : Type} (f : α → α → Ordering) (g : β → β → Ordering)
    (p q : α × β) : Ordering :=
  (f p.1 q.1).then (g p.2 q.2)

/-- Lawfulness of a three-way comparison: it decides equality, is
antisymmetric under `Ordering.swap`, and its strict part is transitive. -/
structure LawfulCmp {α : Type} (f : α → α → Ordering) : Prop where
  eq_iff : ∀ a b, f a b = Ordering.eq ↔ a = b
  swap_eq : ∀ a b, (f a b).swap = f b a
  lt_trans : ∀ a b c, f a b = Ordering.lt → f b c = Ordering.lt → f a c = Ordering.lt

/-! Data model of the referee module (from `src/referee.rs`). -/

/-- Subset of the wikibase snak datatypes distinguished by the module. -/
inductive SnakDataType : Type
  | externalId
  | commonsMedia
  | url
  | wikibaseItem
  | time
  | string
  | monolingualText
  | globeCoordinate
  | quantity
deriving DecidableEq

/-- Wikibase data values, fused with their `DataValueType` tag: the source
first matches on the value type and then on the corresponding value variant,
which this single inductive captures. -/
inductive WValue : Type
  | time (timeStr : String) (precision : Nat)
  | string (s : String)
  | monolingual (lang : String) (text : String)
  | entity (id : String)
  | globeCoordinate
  | quantity
deriving DecidableEq

/-- A snak: property, snak datatype, optional data value. -/
structure WSnak : Type where
  property : String
  datatype : SnakDataType
  datavalue : Option WValue
deriving DecidableEq

/-- A reference on a statement: a group of snaks. -/
structure WReference : Type where
  snaks : List WSnak
deriving DecidableEq

/-- A statement (claim): optional statement id, main snak, references. -/
structure WStatement : Type where
  id : Option String
  mainsnak : WSnak
  references : List WReference
deriving DecidableEq

/-- A label or alias in one language. -/
structure LocaleString : Type where
  language : String
  value : String
deriving DecidableEq

/-- A loaded entity: id, claims, labels and aliases. Sitelinks are not
needed by the statements proved here. -/
structure WEntity : Type where
  id : String
  claims : List WStatement
  labels : List LocaleString
  aliases : List LocaleString
deriving DecidableEq

/-- The `EntityStatement` record built by the statement selector. -/
structure EntityStatement : Type where
  entity : String
  property : String
  id : String
  claim : WStatement
deriving DecidableEq

/-- Provenance of a candidate URL. -/
inductive UrlType : Type
  | WikiExternal
  | ExternalId
  | DirectWebsite
deriving DecidableEq

/-- A candidate URL with provenance metadata and fetched page text. -/
structure UrlCandidate : Type where
  url : String
  url_type : UrlType
  property : Option String
  external_id : Option String
  stated_in : Option String
  language : String
  text : String
deriving DecidableEq

/-- A matched text window: up to 60 characters before, the matched
substring, up to 60 characters after. -/
structure TextPart : Type where
  before : String
  regexp_match : String
  after : String
deriving DecidableEq

/-- The output record of the pipeline. -/
structure ConciseUrlCandidate : Type where
  statement_id : String
  url : String
  property : Option String
  external_id : Option String
  stated_in : Option String
  language : String
  texts : List TextPart
deriving DecidableEq

/-- Derived `Ord` on `TextPart`: lexicographic on its three fields. -/
def tpCmp (a b : TextPart) : Ordering :=
  ((strCmp a.before b.before).then (strCmp a.regexp_match b.regexp_match)).then
    (strCmp a.after b.after)

/-- The order relation `a ≤ b` used when sorting text windows. -/
def tpLe (a b : TextPart) : Prop := tpCmp a b ≠ Ordering.gt

instance : DecidableRel tpLe :=
  fun a b => inferInstanceAs (Decidable (tpCmp a b ≠ Ordering.gt))

/-- PartialEq for `ConciseUrlCandidate` from the source: equality of
statement id, url, property, external id and language; `texts` and
`stated_in` are not compared. -/
def cucEqb (a b : ConciseUrlCandidate) : Bool :=
  a.statement_id == b.statement_id && a.url == b.url && a.property == b.property
    && a.external_id == b.external_id && a.language == b.language

/-- The merge key of an output record: the five fields compared by the
source's `PartialEq` and `Ord` implementations. -/
abbrev CucKey : Type := String × String × Option String × Option String × String

/-- Project an output record to its merge key. -/
def keyOf (c : ConciseUrlCandidate) : CucKey :=
  (c.statement_id, c.url, c.property, c.external_id, c.language)

/-- Lexicographic comparison of merge keys. -/
def keyCmp : CucKey → CucKey → Ordering :=
  pairCmp strCmp (pairCmp strCmp (pairCmp (optCmp strCmp)
    (pairCmp (optCmp strCmp) strCmp)))

/-- `Ord` for `ConciseUrlCandidate` from the source: the chained comparison
of statement id, url, property, external id and language. -/
def cucCmp (a b : ConciseUrlCandidate) : Ordering :=
  ((((strCmp a.statement_id b.statement_id).then (strCmp a.url b.url)).then
        (optCmp strCmp a.property b.property)).then
      (optCmp strCmp a.external_id b.external_id)).then
    (strCmp a.language b.language)

/-- The order relation `a ≤ b` induced by `cucCmp`, used by `Vec::sort`. -/
def cucLe (a b : ConciseUrlCandidate) : Prop := cucCmp a b ≠ Ordering.gt

instance : DecidableRel cucLe :=
  fun a b => inferInstanceAs (Decidable (cucCmp a b ≠ Ordering.gt))

/-! The merge step (`merge_cuc_candidates`). -/

/-- Sorting of text windows, modelling `Vec::sort` on `TextPart`. -/
def sortTexts (l : List TextPart) : List TextPart := List.insertionSort tpLe l

/-- Removal of consecutive duplicates, modelling `Vec::dedup`. -/
def dedupConsec (l : List TextPart) : List TextPart :=
  List.destutter (fun a b => a ≠ b) l

/-- Per-record normalisation at the end of the merge: sort the text windows,
then remove consecutive duplicates. -/
def normTexts (cuc : ConciseUrlCandidate) : ConciseUrlCandidate :=
  { cuc with texts := dedupConsec (sortTexts cuc.texts) }

/-- The source's merge loop: keep a current last record; a record equal
(under `PartialEq`) to the last one donates its text windows to it,
any other record is pushed and becomes the new last record. -/
def mergeLoop (last : ConciseUrlCandidate) :
    List ConciseUrlCandidate → List ConciseUrlCandidate
  | [] => [last]
  | current :: rest =>
    if cucEqb current last then
      mergeLoop { last with texts := last.texts ++ current.texts } rest
    else
      last :: mergeLoop current rest

/-- Merge of the sorted pool of match records. The source starts with
`input.remove(0)`, which panics when `input` is empty; the panic is
modelled by `none`. -/
def merge_cuc_candidates : List ConciseUrlCandidate → Option (List ConciseUrlCandidate)
  | [] => none
  | first :: rest => some ((mergeLoop first rest).map normTexts)

/-- Tail of `get_potential_references` after the per-statement match
records have been pooled: drop records whose candidate property is P973,
sort, then merge. -/
def finalizeCandidates (records : List ConciseUrlCandidate) :
    Option (List ConciseUrlCandidate) :=
  merge_cuc_candidates
    (List.insertionSort cucLe
      (records.filter (fun r => r.property ≠ some ("P973"))))

/-! The language guesser (`guess_page_language_from_text`). -/

/-- Word characters for the `\b` boundaries of the counting regexes:
alphanumeric, underscore, and (as all letters occurring in the curated word
lists are letters) any non-ASCII character. -/
def isWordChar (c : Char) : Bool := c.isAlphanum || c == '_' || 127 < c.toNat

/-- Maximal runs of word characters in a character list; the accumulator
holds the current run reversed. -/
def wordTokensAux : List Char → List Char → List String
  | [], acc => if acc.isEmpty then [] else [String.mk acc.reverse]
  | c :: cs, acc =>
    if isWordChar c then wordTokensAux cs (c :: acc)
    else if acc.isEmpty then wordTokensAux cs []
    else String.mk acc.reverse :: wordTokensAux cs []

/-- Maximal word-character runs of a text. A match of `\b(w1|…|wk)\b` must
start and end on a word boundary and the listed words consist of word
characters only, so the non-overlapping matches counted by `find_iter` are
exactly the maximal runs equal to a listed word. -/
def wordTokens (s : String) : List String := wordTokensAux s.toList []

/-- The curated function-word list per language, from the five counting
regexes of the source (duplicated alternatives are harmless: a token is
counted once either way). -/
def wordList (lang : String) : List String :=
  match lang with
  | "en" => ["he", "she", "it", "is", "was", "the", "a", "an"]
  | "de" => ["er", "sie", "es", "das", "ein", "eine", "war", "ist"]
  | "it" => ["è", "una", "della", "la", "nel", "si", "su", "una", "di"]
  | "fr" => ["est", "un", "une", "et", "la", "il", "a", "de", "par"]
  | "es" => ["el", "es", "un", "de", "a", "la", "es", "conlas", "dos"]
  | _ => []

/-- Occurrence count of the function words of `lang` in `text`, the model of
`regex.find_iter(text).count()`. -/
def countFor (text lang : String) : Nat :=
  (wordTokens text).countP (fun t => (wordList lang).contains t)

/-- The five language codes, keys of the candidates hash map. -/
def languageCodes : List String := ["en", "de", "it", "fr", "es"]

/-- The selection loop of the guesser: keep the first language (in hash-map
iteration order) whose count strictly exceeds the running best, which starts
at the floor 5. -/
def guessLoop (cnt : String → Nat) : List String → String → Nat → String
  | [], ret, _ => ret
  | l :: rest, ret, best =>
    if cnt l ≤ best then guessLoop cnt rest ret best
    else guessLoop cnt rest l (cnt l)

/-- The language guesser. `order` is the iteration order of the candidates
`HashMap`, which Rust leaves unspecified; it ranges over the permutations of
`languageCodes`. -/
def guess_page_language_from_text (order : List String) (text : String) : String :=
  guessLoop (fun lang => countFor text lang) order ("en") 5

/-! The statement selector (`get_statements_needing_references`). -/

/-- Properties for which references are never expected. -/
def refereeNoRefs : List String := ["P225", "P373", "P1472", "P1889"]

/-- The selection loop over the claims of the loaded entity. -/
def statementsNeedingRefsLoop (entity : String) :
    List WStatement → List EntityStatement
  | [] => []
  | claim :: rest =>
    let property := claim.mainsnak.property
    if refereeNoRefs.contains property then
      statementsNeedingRefsLoop entity rest
    else if claim.mainsnak.datatype == SnakDataType.externalId
        || claim.mainsnak.datatype == SnakDataType.commonsMedia then
      statementsNeedingRefsLoop entity rest
    else
      { entity := entity, property := property, id := claim.id.getD "",
        claim := claim } :: statementsNeedingRefsLoop entity rest

/-- The statement selector on a loaded entity (the trim/uppercase and the
network load of the raw entity id are elided). -/
def get_statements_needing_references (entity : String) (item : WEntity) :
    List EntityStatement :=
  statementsNeedingRefsLoop entity item.claims

/-- The eligibility test the selector applies to one claim: the property is
not reference-exempt and the main snak datatype is neither external-id nor
commons-media. -/
def statementEligible (claim : WStatement) : Bool :=
  !(refereeNoRefs.contains claim.mainsnak.property)
    && !(claim.mainsnak.datatype == SnakDataType.externalId)
    && !(claim.mainsnak.datatype == SnakDataType.commonsMedia)

/-! Search-pattern generation (`get_statement_search_patterns`). -/

/-- Whitespace characters for `str::trim`, restricted to the ASCII
whitespace that the text normaliser can leave in page text. -/
def isWsChar (c : Char) : Bool := c == ' ' || c == '\t' || c == '\n' || c == '\r'

/-- Model of `str::trim`: drop leading and trailing whitespace. -/
def trimChars (s : String) : String :=
  String.mk ((s.data.dropWhile isWsChar).reverse.dropWhile isWsChar).reverse

/-- Decimal value of a digit list with accumulator. -/
def digitsToNat : List Char → Nat → Nat
  | [], acc => acc
  | c :: cs, acc => digitsToNat cs (acc * 10 + (c.toNat - 48))

/-- Model of `str::parse::<u32>` on the short digit strings produced by the
time regex: all-digit strings parse to their decimal value, anything else
fails. -/
def parseNat? (s : String) : Option Nat :=
  if s.data.isEmpty || !(s.data.all Char.isDigit) then none
  else some (digitsToNat s.data 0)

/-- Characters escaped by the regex escape function (the braces are written
with hex escapes). -/
def regexMetaChars : List Char := "\\.+*?()|[]\x7b\x7d^$#&-~".toList

/-- Meta-character test of the regex escape function. -/
def isMetaChar (c : Char) : Bool := regexMetaChars.contains c

/-- Model of `regex::escape`: every meta character receives a preceding
backslash. -/
def escapeRegex (s : String) : String :=
  String.mk (s.toList.flatMap (fun c => if isMetaChar c then ['\\', c] else [c]))

/-- Drop one leading sign, the `[+-]{0,1}` part of the time regex. -/
def dropSign : List Char → List Char
  | '+' :: cs => cs
  | '-' :: cs => cs
  | cs => cs

/-- Split off the maximal leading run of ASCII digits. -/
def takeDigits : List Char → List Char × List Char
  | [] => ([], [])
  | c :: cs =>
    if c.isDigit then
      let p := takeDigits cs
      (c :: p.1, p.2)
    else ([], c :: cs)

/-- Model of matching `^[+-]{0,1}0*(\d+)-(\d\d)-(\d\d)` against a wikibase
time string and extracting the three captures: the greedy `0*` followed by
`(\d+)` strips the leading zeros of the year run but keeps at least one
digit; month and day are exactly two digits each. -/
def parseTimeYMD (s : String) : Option (String × String × String) :=
  let cs := dropSign s.toList
  let p := takeDigits cs
  if p.1.isEmpty then none
  else
    let ys := p.1.dropWhile (fun c => c == '0')
    let year := if ys.isEmpty then "0" else String.mk ys
    match p.2 with
    | '-' :: m1 :: m2 :: '-' :: d1 :: d2 :: _ =>
      if m1.isDigit && m2.isDigit && d1.isDigit && d2.isDigit then
        some (year, String.mk [m1, m2], String.mk [d1, d2])
      else none
    | _ => none

/-- English month names, index 0 unused. -/
def enMonthNames : List String :=
  ["", "January", "February", "March", "April", "May", "June", "July",
   "August", "September", "October", "November", "December"]

/-- German month names, index 0 unused. -/
def deMonthNames : List String :=
  ["", "Januar", "Februar", "März", "April", "Mai", "Juni", "Juli",
   "August", "September", "Oktober", "November", "Dezember"]

/-- French month names, index 0 unused. -/
def frMonthNames : List String :=
  ["", "janvier", "février", "mars", "avril", "mai", "juin", "juillet",
   "août", "septembre", "octobre", "novembre", "décembre"]

/-- Whole characters fitting in the first `n` bytes of a string: model of the
byte slice `&s[0..min(n, s.len())]`. When the cut falls inside a multi-byte
character the source panics; the model keeps the maximal whole-character
part (no statement proved here exercises that case). -/
def byteTakeAux : Nat → List Char → List Char
  | _, [] => []
  | n, c :: cs => if c.utf8Size ≤ n then c :: byteTakeAux (n - c.utf8Size) cs else []

/-- String form of `byteTakeAux`. -/
def byteTake (n : Nat) (s : String) : String := String.mk (byteTakeAux n s.toList)

/-- Zero-padded two-digit decimal rendering, the `{n:02}` format. -/
def pad2 (n : Nat) : String := if n < 10 then "0" ++ toString n else toString n

/-- Locale-specific date renderings (`add_locale_specific_dates`): a
zero-padded ISO form first, then the per-language forms. -/
def add_locale_specific_dates (language year : String) (month_num day_num : Nat) :
    List String :=
  (year ++ "-" ++ pad2 month_num ++ "-" ++ pad2 day_num) ::
    (match language with
     | "en" =>
       let long_month := enMonthNames.getD month_num ""
       let short_month := byteTake 3 long_month
       [long_month ++ " " ++ toString day_num ++ ", " ++ year,
        short_month ++ " " ++ toString day_num ++ ", " ++ year]
     | "de" =>
       let long_month := deMonthNames.getD month_num ""
       let short_month := byteTake 3 long_month
       [toString day_num ++ ". " ++ long_month ++ " " ++ year,
        toString day_num ++ ". " ++ short_month ++ " " ++ year,
        pad2 day_num ++ ". " ++ long_month ++ " " ++ year,
        pad2 day_num ++ ". " ++ short_month ++ " " ++ year,
        toString day_num ++ ". " ++ toString month_num ++ ". " ++ year,
        toString day_num ++ "." ++ toString month_num ++ "." ++ year,
        pad2 day_num ++ ". " ++ pad2 month_num ++ ". " ++ year,
        pad2 day_num ++ "." ++ pad2 month_num ++ "." ++ year]
     | "fr" =>
       let long_month := frMonthNames.getD month_num ""
       [toString day_num ++ " " ++ long_month ++ " " ++ year]
     | _ =>
       [toString day_num ++ ". " ++ toString month_num ++ ". " ++ year,
        toString day_num ++ "." ++ toString month_num ++ "." ++ year,
        toString day_num ++ "/" ++ toString month_num ++ "/" ++ year,
        pad2 day_num ++ ". " ++ pad2 month_num ++ ". " ++ year,
        pad2 day_num ++ "." ++ pad2 month_num ++ "." ++ year,
        pad2 day_num ++ "/" ++ pad2 month_num ++ "/" ++ year])

/-- Candidate label/alias strings for a linked entity: the target-language
aliases, with the target-language label and then the language-neutral "mul"
label inserted in front. -/
def entityAliasCandidates (vi : WEntity) (language : String) : List String :=
  let aliases :=
    (vi.aliases.filter (fun s => s.language == language)).map (fun s => s.value)
  let label_mul :=
    ((vi.labels.filter (fun s => s.language == "mul")).map (fun s => s.value)).head?
  let label_opt :=
    ((vi.labels.filter (fun s => s.language == language)).map (fun s => s.value)).head?
  let withLabel :=
    match label_opt with
    | some label => label :: aliases
    | none => aliases
  match label_mul with
  | some label => label :: withLabel
  | none => withLabel

/-- The alias loop of the entity-value branch: trim, regex-escape, and keep
only strings whose escaped form is at least 3 bytes long. -/
def escapeFilterLoop : List String → List String
  | [] => []
  | a :: rest =>
    let alias_quoted := escapeRegex (trimChars a)
    if alias_quoted.utf8ByteSize < 3 then escapeFilterLoop rest
    else alias_quoted :: escapeFilterLoop rest

/-- Search-pattern generation for one statement and a target language.
`loadEnt` abstracts the entity container: `none` plays the role of a lookup
that yields no entity, for which the source returns the empty pattern list. -/
def get_statement_search_patterns (loadEnt : String → Option WEntity)
    (stmt : EntityStatement) (language : String) : List String :=
  if refereeNoRefs.contains stmt.property then []
  else
    match stmt.claim.mainsnak.datavalue with
    | none => []
    | some (WValue.time ts precision) =>
      match parseTimeYMD ts with
      | none => []
      | some (year, month, day) =>
        if precision == 9 then [year]
        else if precision == 11 then
          let month_num := (parseNat? month).getD 1
          let day_num := (parseNat? day).getD 1
          (year ++ "-" ++ month ++ "-" ++ day) ::
            add_locale_specific_dates language year month_num day_num
        else []
    | some (WValue.string s) => [s]
    | some (WValue.monolingual _ t) => [t]
    | some (WValue.entity eid) =>
      match loadEnt eid with
      | none => []
      | some vi => escapeFilterLoop (entityAliasCandidates vi language)
    | some WValue.globeCoordinate => []
    | some WValue.quantity => []

/-! Reference checking and per-statement matching. -/

/-- String value of a snak, when its data value is a string. -/
def snakStringValue (snak : WSnak) : Option String :=
  match snak.datavalue with
  | some (WValue.string s) => some s
  | _ => none

/-- Does one of the statement's existing references already cite this
candidate: a P854 snak whose string value is the candidate URL, or — for an
external-id candidate — a snak for the candidate's originating property
whose string value is the candidate's external id. -/
def does_statement_have_this_reference (stmt : EntityStatement)
    (uc : UrlCandidate) : Bool :=
  stmt.claim.references.any fun reference =>
    ((reference.snaks.filter (fun snak => snak.property == "P854")).any fun snak =>
      match snakStringValue snak with
      | some u => u == uc.url
      | none => false)
    ||
    (uc.url_type == UrlType.ExternalId &&
      match uc.property with
      | some ref_prop =>
        (reference.snaks.filter (fun snak => snak.property == ref_prop)).any fun snak =>
          match snakStringValue snak, uc.external_id with
          | some s, some external_id => s == external_id
          | _, _ => false
      | none => false)

/-- Constructor `ConciseUrlCandidate::new`. -/
def ConciseUrlCandidate.mkNew (sid : String) (uc : UrlCandidate) (tp : TextPart) :
    ConciseUrlCandidate :=
  { statement_id := sid, url := uc.url, property := uc.property,
    external_id := uc.external_id, stated_in := uc.stated_in,
    language := uc.language, texts := [tp] }

/-- Is `needle` a contiguous substring of `haystack` (Rust `str::contains`). -/
def containsSubstrAux (needle : List Char) : List Char → Bool
  | [] => needle.isEmpty
  | c :: cs => List.isPrefixOf needle (c :: cs) || containsSubstrAux needle cs

/-- String form of `containsSubstrAux`. -/
def containsSubstr (haystack needle : String) : Bool :=
  containsSubstrAux needle.toList haystack.toList

/-- Match records from one pattern against one candidate: blank patterns are
skipped; otherwise the abstract regex matcher either yields one text window
or nothing. -/
def matchPattern (matcher : String → String → Option TextPart) (sid : String)
    (uc : UrlCandidate) (pattern : String) : List ConciseUrlCandidate :=
  if (trimChars pattern).isEmpty then []
  else
    match matcher pattern uc.text with
    | some tp => [ConciseUrlCandidate.mkNew sid uc tp]
    | none => []

/-- Per-statement processing: statements without an id yield nothing; each
candidate already cited by the statement is skipped, the hard-coded
P27/invaluable false-positive suppression is applied, and the remaining
candidates are searched with the patterns generated for their language. -/
def process_statement (matcher : String → String → Option TextPart)
    (loadEnt : String → Option WEntity) (stmt : EntityStatement)
    (cands : List UrlCandidate) : List ConciseUrlCandidate :=
  match stmt.claim.id with
  | none => []
  | some sid =>
    cands.flatMap fun uc =>
      if does_statement_have_this_reference stmt uc then []
      else if stmt.property == "P27" && containsSubstr uc.url ("www.invaluable.com") then []
      else
        (get_statement_search_patterns loadEnt stmt uc.language).flatMap
          (matchPattern matcher sid uc)

/-- Candidate built by `get_direct_websites` for an official-website (P856)
or described-at-URL (P973) string value: provenance `DirectWebsite`, no
originating property and no external id. -/
def directWebsiteCandidate (url text language : String) : UrlCandidate :=
  { url := url, url_type := UrlType.DirectWebsite, property := none,
    external_id := none, stated_in := none, language := language, text := text }

/-! Concrete sample data used by the claim witnesses and
counterexamples. -/

/-- A concrete two-record sorted pool on which the merge is idempotent. -/
def c10a : ConciseUrlCandidate :=
  { statement_id := "Q42$A1", url := "https://a.example/x", property := none,
    external_id := none, stated_in := none, language := "en",
    texts := [{ before := "b", regexp_match := "m", after := "a" }] }

/-- A second record with the same merge key but a different text window. -/
def c10b : ConciseUrlCandidate :=
  { c10a with texts := [{ before := "c", regexp_match := "n", after := "d" }] }

/-- Two records sharing the full five-field merge key with different text
windows, used to instantiate the uniqueness theorem. -/
def c2a : ConciseUrlCandidate :=
  { statement_id := "Q42$B1", url := "https://b.example/x", property := some ("P999"),
    external_id := some ("ID1"), stated_in := none, language := "en",
    texts := [{ before := "x", regexp_match := "m", after := "y" }] }

/-- Second record with the same merge key. -/
def c2b : ConciseUrlCandidate :=
  { c2a with texts := [{ before := "q", regexp_match := "m", after := "r" }] }

/-- Record for a statement, in German. -/
def c2de : ConciseUrlCandidate :=
  { statement_id := "Q42$C1", url := "https://c.example/x", property := none,
    external_id := none, stated_in := none, language := "de",
    texts := [{ before := "b", regexp_match := "m", after := "a" }] }

/-- Record identical to `c2de` in statement id, url, property and external
id, differing only in language and text windows. -/
def c2en : ConciseUrlCandidate :=
  { c2de with
    language := "en"
    texts := [{ before := "c", regexp_match := "n", after := "d" }] }

/-- Sample text whose English function-word count is 6 and all other counts
are 0. -/
def c3Sample : String := "the the the the the the"

/-- Tie text: the German count and the French count are both 6, every other
count is 0. -/
def c3Tie : String := "ist est ist est ist est ist est ist est ist est"

/-- An admissible hash-map iteration order that visits "de" first. -/
def c3Order : List String := ["de", "en", "it", "fr", "es"]

/-- A "described at URL" (P973) statement whose string value is a URL. -/
def c4Statement : EntityStatement :=
  { entity := "Q42", property := "P973", id := "Q42$D1",
    claim :=
      { id := some ("Q42$D1"),
        mainsnak :=
          { property := "P973", datatype := SnakDataType.url,
            datavalue := some (WValue.string ("https://described.example/page")) },
        references := [] } }

/-- A candidate built by `get_direct_websites`: its `property` field is
`none` whichever of P856/P973 produced its URL. -/
def c4Candidate : UrlCandidate :=
  directWebsiteCandidate ("https://other.example/page")
    ("intro https://described.example/page outro") ("en")

/-- The text window found for the P973 statement's URL value. -/
def c4Window : TextPart :=
  { before := "intro ", regexp_match := "https://described.example/page",
    after := " outro" }

/-- A matcher standing for a successful regex search of the candidate text. -/
def c4Matcher : String → String → Option TextPart := fun _ _ => some c4Window

/-- The match record the pipeline produces for the P973 statement. -/
def c4Record : ConciseUrlCandidate :=
  { statement_id := "Q42$D1", url := "https://other.example/page",
    property := none, external_id := none, stated_in := none, language := "en",
    texts := [c4Window] }

/-- An entity whose only relevant string is a two-character target-language
label consisting of regex meta characters. -/
def c5Entity : WEntity :=
  { id := "Q77", claims := [],
    labels := [{ language := "en", value := "**" }], aliases := [] }

/-- A statement whose value links to that entity. -/
def c5Statement : EntityStatement :=
  { entity := "Q1", property := "P361", id := "Q1$E1",
    claim :=
      { id := some ("Q1$E1"),
        mainsnak :=
          { property := "P361", datatype := SnakDataType.wikibaseItem,
            datavalue := some (WValue.entity ("Q77")) },
        references := [] } }

/-- A year-precision date-of-birth statement as stored by wikibase: month
and day are zeroed at year precision. -/
def c6Statement : EntityStatement :=
  { entity := "Q42", property := "P569", id := "Q42$F1",
    claim :=
      { id := some ("Q42$F1"),
        mainsnak :=
          { property := "P569", datatype := SnakDataType.time,
            datavalue := some (WValue.time ("+1990-00-00T00:00:00Z") 9) },
        references := [] } }

/-- A day-precision date statement for 1990-05-17. -/
def c7Statement : EntityStatement :=
  { entity := "Q42", property := "P569", id := "Q42$H1",
    claim :=
      { id := some ("Q42$H1"),
        mainsnak :=
          { property := "P569", datatype := SnakDataType.time,
            datavalue := some (WValue.time ("+1990-05-17T00:00:00Z") 11) },
        references := [] } }

/-- A statement that already cites a URL through a P854 reference snak. -/
def c9Statement : EntityStatement :=
  { entity := "Q42", property := "P106", id := "Q42$G1",
    claim :=
      { id := some ("Q42$G1"),
        mainsnak :=
          { property := "P106", datatype := SnakDataType.string,
            datavalue := some (WValue.string ("painter")) },
        references :=
          [{ snaks :=
              [{ property := "P854", datatype := SnakDataType.url,
                 datavalue := some (WValue.string ("https://cited.example/ref")) }] }] } }

/-- A candidate with exactly that URL, whose text would otherwise match. -/
def c9Candidate : UrlCandidate :=
  { url := "https://cited.example/ref", url_type := UrlType.WikiExternal,
    property := none, external_id := none, stated_in := none,
    language := "en", text := "a painter page" }

/-- A matcher that would report a match if the candidate were searched. -/
def c9Matcher : String → String → Option TextPart :=
  fun _ _ => some { before := "a ", regexp_match := "painter", after := " page" }

/-! Lawfulness of the three-way comparisons. -/

theorem ordering_then_assoc (x y z : Ordering) : (x.then y).then z = x.then (y.then z) := by
  cases x <;> rfl

theorem ordering_then_eq_eq (x y : Ordering) :
    x.then y = Ordering.eq ↔ x = Ordering.eq ∧ y = Ordering.eq := by
  cases x <;> simp [Ordering.then]

theorem ordering_then_eq_lt (x y : Ordering) :
    x.then y = Ordering.lt ↔ x = Ordering.lt ∨ (x = Ordering.eq ∧ y = Ordering.lt) := by
  cases x <;> simp [Ordering.then]

theorem ordering_then_swap (x y : Ordering) : (x.then y).swap = x.swap.then y.swap := by
  cases x <;> rfl

theorem linCmp_eq_lt {α : Type} [LinearOrder α] (a b : α) :
    linCmp a b = Ordering.lt ↔ a < b := by
  unfold linCmp
  split_ifs with h1 h2
  · exact iff_of_true rfl h1
  · exact iff_of_false (by decide) (by rw [h2]; exact lt_irrefl b)
  · exact iff_of_false (by decide) h1

theorem lawful_linCmp {α : Type} [LinearOrder α] : LawfulCmp (linCmp (α := α)) := by
  constructor
  · intro a b
    unfold linCmp
    split_ifs with h1 h2
    · exact iff_of_false (by decide) (ne_of_lt h1)
    · exact iff_of_true rfl h2
    · exact iff_of_false (by decide) h2
  · intro a b
    rcases lt_trichotomy a b with h | h | h
    · rw [(linCmp_eq_lt a b).mpr h]
      unfold linCmp
      rw [if_neg (asymm h), if_neg (ne_of_gt h)]
      rfl
    · subst h
      unfold linCmp
      rw [if_neg (lt_irrefl a), if_pos rfl]
      rfl
    · rw [(linCmp_eq_lt b a).mpr h]
      unfold linCmp
      rw [if_neg (asymm h), if_neg (ne_of_gt h)]
      rfl
  · intro a b c hab hbc
    exact (linCmp_eq_lt a c).mpr
      (lt_trans ((linCmp_eq_lt a b).mp hab) ((linCmp_eq_lt b c).mp hbc))

theorem lawful_charCmp : LawfulCmp charCmp := by
  have h := lawful_linCmp (α := Nat)
  constructor
  · intro a b
    rw [charCmp, h.eq_iff]
    exact ⟨fun hn => Char.ext (UInt32.ext hn), fun he => by rw [he]⟩
  · intro a b
    rw [charCmp, charCmp, h.swap_eq]
  · intro a b c h1 h2
    exact h.lt_trans _ _ _ h1 h2

theorem lawful_charsCmp : LawfulCmp charsCmp := by
  constructor
  · intro as
    induction as with
    | nil => intro bs; cases bs <;> simp [charsCmp]
    | cons a as ih =>
      intro bs
      cases bs with
      | nil => simp [charsCmp]
      | cons b bs =>
        simp [charsCmp, ordering_then_eq_eq, lawful_charCmp.eq_iff, ih]
  · intro as
    induction as with
    | nil => intro bs; cases bs <;> rfl
    | cons a as ih =>
      intro bs
      cases bs with
      | nil => rfl
      | cons b bs =>
        simp [charsCmp, ordering_then_swap, lawful_charCmp.swap_eq, ih]
  · intro as
    induction as with
    | nil =>
      intro bs cs h1 h2
      cases bs with
      | nil => exact absurd h1 (by simp [charsCmp])
      | cons b bs =>
        cases cs with
        | nil => exact absurd h2 (by simp [charsCmp])
        | cons c cs => simp [charsCmp]
    | cons a as ih =>
      intro bs cs h1 h2
      cases bs with
      | nil => exact absurd h1 (by simp [charsCmp])
      | cons b bs =>
        cases cs with
        | nil => exact absurd h2 (by simp [charsCmp])
        | cons c cs =>
          rw [charsCmp, ordering_then_eq_lt] at h1 h2 ⊢
          rcases h1 with hab | ⟨hab, habs⟩
          · rcases h2 with hbc | ⟨hbc, _⟩
            · exact Or.inl (lawful_charCmp.lt_trans _ _ _ hab hbc)
            · rw [(lawful_charCmp.eq_iff _ _).mp hbc] at hab
              exact Or.inl hab
          · rcases h2 with hbc | ⟨hbc, hbcs⟩
            · rw [← (lawful_charCmp.eq_iff _ _).mp hab] at hbc
              exact Or.inl hbc
            · refine Or.inr ⟨?_, ih _ _ habs hbcs⟩
              rw [(lawful_charCmp.eq_iff _ _).mp hab, hbc]

theorem lawful_strCmp : LawfulCmp strCmp := by
  constructor
  · intro a b
    rw [strCmp, lawful_charsCmp.eq_iff]
    constructor
    · intro h
      exact congrArg String.mk h
    · intro h
      rw [h]
  · intro a b
    rw [strCmp, strCmp, lawful_charsCmp.swap_eq]
  · intro a b c h1 h2
    exact lawful_charsCmp.lt_trans _ _ _ h1 h2

theorem lawful_optCmp {α : Type} {f : α → α → Ordering} (hf : LawfulCmp f) :
    LawfulCmp (optCmp f) := by
  constructor
  · intro a b
    cases a <;> cases b <;> simp [optCmp, hf.eq_iff]
  · intro a b
    cases a <;> cases b <;> simp [optCmp, hf.swap_eq] <;> rfl
  · intro a b c hab hbc
    cases a <;> cases b <;> cases c <;> simp_all [optCmp]
    exact hf.lt_trans _ _ _ hab hbc

theorem lawful_pairCmp {α β : Type} {f : α → α → Ordering} {g : β → β → Ordering}
    (hf : LawfulCmp f) (hg : LawfulCmp g) : LawfulCmp (pairCmp f g) := by
  constructor
  · intro p q
    simp [pairCmp, ordering_then_eq_eq, hf.eq_iff, hg.eq_iff, Prod.ext_iff]
  · intro p q
    simp [pairCmp, ordering_then_swap, hf.swap_eq, hg.swap_eq]
  · intro p q r hpq hqr
    rw [pairCmp, ordering_then_eq_lt] at hpq hqr ⊢
    rcases hpq with h1 | ⟨h1, h1g⟩
    · rcases hqr with h2 | ⟨h2, _⟩
      · exact Or.inl (hf.lt_trans _ _ _ h1 h2)
      · rw [(hf.eq_iff _ _).mp h2] at h1
        exact Or.inl h1
    · rcases hqr with h2 | ⟨h2, h2g⟩
      · rw [← (hf.eq_iff _ _).mp h1] at h2
        exact Or.inl h2
      · refine Or.inr ⟨?_, hg.lt_trans _ _ _ h1g h2g⟩
        rw [(hf.eq_iff _ _).mp h1, h2]

theorem lawful_keyCmp : LawfulCmp keyCmp :=
  lawful_pairCmp lawful_strCmp (lawful_pairCmp lawful_strCmp
    (lawful_pairCmp (lawful_optCmp lawful_strCmp)
      (lawful_pairCmp (lawful_optCmp lawful_strCmp) lawful_strCmp)))

theorem LawfulCmp.cmp_self {α : Type} {f : α → α → Ordering} (h : LawfulCmp f)
    (a : α) : f a a = Ordering.eq :=
  (h.eq_iff a a).mpr rfl

theorem LawfulCmp.le_trans {α : Type} {f : α → α → Ordering} (h : LawfulCmp f)
    {a b c : α} (hab : f a b ≠ Ordering.gt) (hbc : f b c ≠ Ordering.gt) :
    f a c ≠ Ordering.gt := by
  cases h1 : f a b with
  | eq => rw [(h.eq_iff a b).mp h1]; exact hbc
  | gt => exact absurd h1 hab
  | lt =>
    cases h2 : f b c with
    | eq => rw [← (h.eq_iff b c).mp h2]; rw [h1]; simp
    | gt => exact absurd h2 hbc
    | lt => rw [h.lt_trans a b c h1 h2]; simp

theorem LawfulCmp.le_antisymm {α : Type} {f : α → α → Ordering} (h : LawfulCmp f)
    {a b : α} (hab : f a b ≠ Ordering.gt) (hba : f b a ≠ Ordering.gt) : a = b := by
  cases h1 : f a b with
  | eq => exact (h.eq_iff a b).mp h1
  | gt => exact absurd h1 hab
  | lt =>
    exfalso
    apply hba
    rw [← h.swap_eq a b, h1]
    rfl

theorem LawfulCmp.le_of_gt {α : Type} {f : α → α → Ordering} (h : LawfulCmp f)
    {a b : α} (hab : f a b = Ordering.gt) : f b a ≠ Ordering.gt := by
  rw [← h.swap_eq a b, hab]
  simp [Ordering.swap]

theorem LawfulCmp.lt_of_le_ne {α : Type} {f : α → α → Ordering} (h : LawfulCmp f)
    {a b : α} (hab : f a b ≠ Ordering.gt) (hne : a ≠ b) : f a b = Ordering.lt := by
  cases h1 : f a b with
  | lt => rfl
  | eq => exact absurd ((h.eq_iff a b).mp h1) hne
  | gt => exact absurd h1 hab

/-! Key-level facts about the merge order and merge equality. -/

theorem cucCmp_eq_keyCmp (a b : ConciseUrlCandidate) :
    cucCmp a b = keyCmp (keyOf a) (keyOf b) := by
  simp [cucCmp, keyCmp, keyOf, pairCmp, ordering_then_assoc]

theorem cucEqb_iff (a b : ConciseUrlCandidate) :
    cucEqb a b = true ↔ keyOf a = keyOf b := by
  unfold cucEqb keyOf
  simp [Prod.ext_iff, and_assoc]

theorem cucLe_iff_key (a b : ConciseUrlCandidate) :
    cucLe a b ↔ keyCmp (keyOf a) (keyOf b) ≠ Ordering.gt := by
  rw [cucLe, cucCmp_eq_keyCmp]

theorem cucLe_congr_left {a a2 b : ConciseUrlCandidate}
    (h : keyOf a = keyOf a2) : cucLe a b ↔ cucLe a2 b := by
  rw [cucLe_iff_key, cucLe_iff_key, h]

theorem cucLe_refl (a : ConciseUrlCandidate) : cucLe a a := by
  rw [cucLe_iff_key, lawful_keyCmp.cmp_self]
  simp

/-- Replacing the text windows of a record leaves its merge key unchanged. -/
theorem keyOf_withTexts (c : ConciseUrlCandidate) (ts : List TextPart) :
    keyOf { c with texts := ts } = keyOf c := rfl

theorem keyOf_normTexts (c : ConciseUrlCandidate) : keyOf (normTexts c) = keyOf c := rfl

/-! Facts about the merge loop. -/

theorem mergeLoop_head_key (t : List ConciseUrlCandidate) :
    ∀ last, ∃ r rest, mergeLoop last t = r :: rest ∧ keyOf r = keyOf last := by
  induction t with
  | nil => exact fun last => ⟨last, [], rfl, rfl⟩
  | cons c rest ih =>
    intro last
    simp only [mergeLoop]
    by_cases h : cucEqb c last
    · rw [if_pos h]
      obtain ⟨r, rr, hr, hk⟩ := ih { last with texts := last.texts ++ c.texts }
      exact ⟨r, rr, hr, hk⟩
    · rw [if_neg h]
      exact ⟨last, mergeLoop c rest, rfl, rfl⟩

theorem mergeLoop_chain_ne (t : List ConciseUrlCandidate) :
    ∀ last, List.Chain' (fun a b => keyOf a ≠ keyOf b) (mergeLoop last t) := by
  induction t with
  | nil => intro last; simp [mergeLoop]
  | cons c rest ih =>
    intro last
    simp only [mergeLoop]
    by_cases h : cucEqb c last
    · rw [if_pos h]; exact ih _
    · rw [if_neg h]
      obtain ⟨r, rr, hr, hk⟩ := mergeLoop_head_key rest c
      rw [hr, List.chain'_cons]
      constructor
      · rw [hk]
        intro hkey
        exact h ((cucEqb_iff c last).mpr hkey.symm)
      · rw [← hr]
        exact ih c

theorem mergeLoop_eq_self (t : List ConciseUrlCandidate) :
    ∀ last, List.Chain' (fun a b => keyOf a ≠ keyOf b) (last :: t) →
      mergeLoop last t = last :: t := by
  induction t with
  | nil => intro last _; rfl
  | cons c rest ih =>
    intro last h
    rw [List.chain'_cons] at h
    have hne : ¬ (cucEqb c last = true) := by
      intro hc
      exact h.1 ((cucEqb_iff c last).mp hc).symm
    simp only [mergeLoop]
    rw [if_neg hne, ih c h.2]

/-- In a sorted pool, once the merge loop steps past the current record to a
record with a different key, no later record carries the old key again. -/
theorem sorted_no_later_key {last c : ConciseUrlCandidate}
    {rest : List ConciseUrlCandidate}
    (hp : List.Pairwise cucLe (last :: c :: rest))
    (hne : keyOf c ≠ keyOf last) :
    ∀ x, x ∈ c :: rest → keyOf x ≠ keyOf last := by
  intro x hx hxk
  have hlc : cucLe last c :=
    (List.pairwise_cons.mp hp).1 c (List.mem_cons_self c rest)
  have hpc : List.Pairwise cucLe (c :: rest) := (List.pairwise_cons.mp hp).2
  have hcx : cucLe c x := by
    rcases List.mem_cons.mp hx with h | h
    · rw [h]; exact cucLe_refl c
    · exact (List.pairwise_cons.mp hpc).1 x h
  have hlt : keyCmp (keyOf last) (keyOf c) = Ordering.lt :=
    lawful_keyCmp.lt_of_le_ne ((cucLe_iff_key last c).mp hlc) (fun he => hne he.symm)
  have hcl : keyCmp (keyOf c) (keyOf last) = Ordering.gt := by
    rw [← lawful_keyCmp.swap_eq (keyOf last) (keyOf c), hlt]
    rfl
  have := (cucLe_iff_key c x).mp hcx
  rw [hxk] at this
  exact this hcl

/-- Count of records with a given merge key in the merge-loop output of a
sorted pool: one when the key occurs in the pool, zero otherwise. -/
theorem mergeLoop_countP (t : List ConciseUrlCandidate) :
    ∀ last, List.Pairwise cucLe (last :: t) → ∀ k : CucKey,
      (mergeLoop last t).countP (fun r => keyOf r = k)
        = if (last :: t).countP (fun r => keyOf r = k) = 0 then 0 else 1 := by
  induction t with
  | nil =>
    intro last _ k
    by_cases hl : keyOf last = k <;>
      simp [mergeLoop, List.countP_cons, hl]
  | cons c rest ih =>
    intro last hp k
    simp only [mergeLoop]
    by_cases heq : cucEqb c last
    · rw [if_pos heq]
      have hkey : keyOf c = keyOf last := (cucEqb_iff c last).mp heq
      have hp2 : List.Pairwise cucLe ({ last with texts := last.texts ++ c.texts } :: rest) := by
        rw [List.pairwise_cons] at hp ⊢
        refine ⟨fun b hb => ?_, (List.pairwise_cons.mp hp.2).2⟩
        exact (cucLe_congr_left (keyOf_withTexts last (last.texts ++ c.texts))).mpr
          (hp.1 b (List.mem_cons_of_mem c hb))
      rw [ih _ hp2 k]
      have h1 : keyOf ({ last with texts := last.texts ++ c.texts }) = keyOf last := rfl
      by_cases hl : keyOf last = k <;>
        simp [List.countP_cons, h1, hkey, hl]
    · rw [if_neg heq]
      have hne : keyOf c ≠ keyOf last := fun he => heq ((cucEqb_iff c last).mpr he)
      have hpc : List.Pairwise cucLe (c :: rest) := (List.pairwise_cons.mp hp).2
      rw [List.countP_cons, ih c hpc k]
      by_cases hl : keyOf last = k
      · have hzero : (c :: rest).countP (fun r => keyOf r = k) = 0 := by
          rw [List.countP_eq_zero]
          intro x hx
          simp only [decide_eq_true_eq]
          intro hxk
          exact sorted_no_later_key hp hne x hx (by rw [hxk, hl])
        simp [List.countP_cons, hzero, hl]
      · simp [List.countP_cons, hl]

/-- The text windows collected for a given merge key by the merge loop of a
sorted pool are exactly the concatenation, in pool order, of the text
windows of the pool records with that key. -/
theorem mergeLoop_filter_texts (t : List ConciseUrlCandidate) :
    ∀ last, List.Pairwise cucLe (last :: t) → ∀ k : CucKey,
      ((mergeLoop last t).filter (fun r => keyOf r = k)).flatMap (fun r => r.texts)
        = ((last :: t).filter (fun r => keyOf r = k)).flatMap (fun r => r.texts) := by
  induction t with
  | nil => intro last _ k; rfl
  | cons c rest ih =>
    intro last hp k
    simp only [mergeLoop]
    by_cases heq : cucEqb c last
    · rw [if_pos heq]
      have hkey : keyOf c = keyOf last := (cucEqb_iff c last).mp heq
      have hp2 : List.Pairwise cucLe ({ last with texts := last.texts ++ c.texts } :: rest) := by
        rw [List.pairwise_cons] at hp ⊢
        refine ⟨fun b hb => ?_, (List.pairwise_cons.mp hp.2).2⟩
        exact (cucLe_congr_left (keyOf_withTexts last (last.texts ++ c.texts))).mpr
          (hp.1 b (List.mem_cons_of_mem c hb))
      rw [ih _ hp2 k]
      have h1 : keyOf ({ last with texts := last.texts ++ c.texts }) = keyOf last := rfl
      by_cases hl : keyOf last = k <;>
        simp [List.filter_cons, h1, hkey, hl]
    · rw [if_neg heq]
      have hpc : List.Pairwise cucLe (c :: rest) := (List.pairwise_cons.mp hp).2
      by_cases hl : keyOf last = k <;>
        simp [List.filter_cons, hl, ih c hpc k]

/-! Lawfulness of the text-window order and idempotence of the final
sort-and-dedup normalisation. -/

theorem tpCmp_eq_pair (a b : TextPart) :
    tpCmp a b = pairCmp strCmp (pairCmp strCmp strCmp)
      ((a.before, a.regexp_match, a.after)) ((b.before, b.regexp_match, b.after)) := by
  simp [tpCmp, pairCmp, ordering_then_assoc]

theorem lawful_tpCmp : LawfulCmp tpCmp := by
  have hp : LawfulCmp (pairCmp strCmp (pairCmp strCmp strCmp)) :=
    lawful_pairCmp lawful_strCmp (lawful_pairCmp lawful_strCmp lawful_strCmp)
  constructor
  · intro a b
    rw [tpCmp_eq_pair, hp.eq_iff]
    cases a
    cases b
    simp [Prod.ext_iff, and_assoc]
  · intro a b
    rw [tpCmp_eq_pair, tpCmp_eq_pair, hp.swap_eq]
  · intro a b c h1 h2
    rw [tpCmp_eq_pair] at h1 h2 ⊢
    exact hp.lt_trans _ _ _ h1 h2

instance : IsTrans TextPart tpLe :=
  ⟨fun _ _ _ hab hbc => lawful_tpCmp.le_trans hab hbc⟩

instance : IsTotal TextPart tpLe := by
  constructor
  intro a b
  by_cases h : tpCmp a b = Ordering.gt
  · exact Or.inr (lawful_tpCmp.le_of_gt h)
  · exact Or.inl h

theorem sortTexts_sorted (l : List TextPart) : List.Sorted tpLe (sortTexts l) :=
  List.sorted_insertionSort tpLe l

theorem norm_texts_idem (l : List TextPart) :
    dedupConsec (sortTexts (dedupConsec (sortTexts l))) = dedupConsec (sortTexts l) := by
  have hs : List.Sorted tpLe (sortTexts l) := sortTexts_sorted l
  have hds : List.Sorted tpLe (dedupConsec (sortTexts l)) :=
    List.Pairwise.sublist (List.destutter_sublist _ _) hs
  rw [show sortTexts (dedupConsec (sortTexts l)) = dedupConsec (sortTexts l) from
    hds.insertionSort_eq]
  exact List.destutter_idem _ _

theorem normTexts_idem (c : ConciseUrlCandidate) : normTexts (normTexts c) = normTexts c := by
  simp [normTexts, norm_texts_idem]

/-! Claim C10: idempotence of the merge step. -/

/-- C10: the merge step is idempotent. For every non-empty sorted input
list, `merge_cuc_candidates` succeeds, and applying it again to its own
output returns that output unchanged: no records are further combined, no
reordering happens, and the text windows stay as they are. -/
theorem c10_merge_idempotent (l : List ConciseUrlCandidate) (hne : l ≠ [])
    (hs : List.Pairwise cucLe l) :
    ∃ out, merge_cuc_candidates l = some out ∧ merge_cuc_candidates out = some out := by
  obtain ⟨first, rest, rfl⟩ : ∃ a t, l = a :: t := by
    cases l with
    | nil => exact absurd rfl hne
    | cons a t => exact ⟨a, t, rfl⟩
  refine ⟨(mergeLoop first rest).map normTexts, rfl, ?_⟩
  have hmapchain : List.Chain' (fun a b => keyOf a ≠ keyOf b)
      ((mergeLoop first rest).map normTexts) := by
    rw [List.chain'_map]
    simpa [keyOf_normTexts] using mergeLoop_chain_ne rest first
  have hcomp : normTexts ∘ normTexts = normTexts := funext normTexts_idem
  obtain ⟨r, rr, hr, _⟩ := mergeLoop_head_key rest first
  rw [hr] at hmapchain ⊢
  rw [List.map_cons] at hmapchain ⊢
  simp only [merge_cuc_candidates]
  rw [mergeLoop_eq_self _ _ hmapchain]
  simp [List.map_map, hcomp, normTexts_idem]

theorem c10_merge_idempotent_witness :
    ∃ out, merge_cuc_candidates [c10a, c10b] = some out
      ∧ merge_cuc_candidates out = some out :=
  c10_merge_idempotent [c10a, c10b] (by decide) (by decide)

/-! Claim C2: uniqueness of merged records per key. -/

/-- C2 (amended): in the merge step, for any two raw match records of the
sorted pool with identical merge key — statement id, url, property,
external id AND language, since the source's `PartialEq` includes the
language — the merged output contains exactly one record with that key, and
that record's text-window list is exactly the deduplicated union of the
text windows of all pool records with that key, sorted. -/
theorem c2_merge_unique_key (l : List ConciseUrlCandidate)
    (hs : List.Pairwise cucLe l) (a b : ConciseUrlCandidate)
    (ha : a ∈ l) (hb : b ∈ l) (_hk : keyOf a = keyOf b) :
    ∃ out, merge_cuc_candidates l = some out
      ∧ out.countP (fun r => keyOf r = keyOf a) = 1
      ∧ (out.filter (fun r => keyOf r = keyOf a)).flatMap (fun r => r.texts)
          = dedupConsec (sortTexts
              ((l.filter (fun r => keyOf r = keyOf a)).flatMap (fun r => r.texts))) := by
  obtain ⟨first, rest, rfl⟩ : ∃ x t, l = x :: t := by
    cases l with
    | nil => exact absurd ha (List.not_mem_nil a)
    | cons x t => exact ⟨x, t, rfl⟩
  have hcount : (mergeLoop first rest).countP (fun r => keyOf r = keyOf a) = 1 := by
    rw [mergeLoop_countP rest first hs (keyOf a)]
    have hnz : (first :: rest).countP (fun r => keyOf r = keyOf a) ≠ 0 := by
      rw [Ne, List.countP_eq_zero]
      intro h
      exact h a ha (by simp)
    simp [hnz]
  have hkeymap : ((fun r => decide (keyOf r = keyOf a)) ∘ normTexts)
      = (fun r => decide (keyOf r = keyOf a)) := by
    funext r
    simp [keyOf_normTexts]
  refine ⟨(mergeLoop first rest).map normTexts, rfl, ?_, ?_⟩
  · rw [List.countP_map, hkeymap]
    exact hcount
  · obtain ⟨r, hr⟩ :
        ∃ r, (mergeLoop first rest).filter (fun r => keyOf r = keyOf a) = [r] := by
      rw [← List.length_eq_one, ← List.countP_eq_length_filter]
      exact hcount
    have hfm : ((mergeLoop first rest).map normTexts).filter (fun r => keyOf r = keyOf a)
        = ((mergeLoop first rest).filter (fun r => keyOf r = keyOf a)).map normTexts := by
      rw [List.filter_map, hkeymap]
    have hrt : r.texts
        = ((first :: rest).filter (fun r => keyOf r = keyOf a)).flatMap (fun r => r.texts) := by
      have h2 := mergeLoop_filter_texts rest first hs (keyOf a)
      rw [hr] at h2
      simpa using h2
    rw [hfm, hr, List.map_cons, List.map_nil]
    simp [normTexts, hrt]

theorem c2_merge_unique_key_witness :
    ∃ out, merge_cuc_candidates [c2a, c2b] = some out
      ∧ out.countP (fun r => keyOf r = keyOf c2a) = 1
      ∧ (out.filter (fun r => keyOf r = keyOf c2a)).flatMap (fun r => r.texts)
          = dedupConsec (sortTexts
              (([c2a, c2b].filter (fun r => keyOf r = keyOf c2a)).flatMap (fun r => r.texts))) :=
  c2_merge_unique_key [c2a, c2b] (by decide) c2a c2b (by decide) (by decide) (by decide)

/-- C2 counterexample: two sorted pool records agreeing on statement id,
url, property and external id but not on language are NOT combined — the
merged output keeps both records, so the claimed language-free merge key,
under which the output would contain exactly one record for this key, does
not hold on the code. -/
theorem c2_counterexample :
    c2de.statement_id = c2en.statement_id ∧ c2de.url = c2en.url
      ∧ c2de.property = c2en.property ∧ c2de.external_id = c2en.external_id
      ∧ List.Pairwise cucLe [c2de, c2en]
      ∧ merge_cuc_candidates [c2de, c2en] = some [c2de, c2en]
      ∧ c2de.texts ≠ c2en.texts := by
  refine ⟨rfl, rfl, rfl, rfl, by decide, by decide, by decide⟩

/-! Claim C1: behaviour on an empty pooled match list. -/

/-- C1: when the pooled match list handed to the merge step is empty — all
statements and candidate URLs present but no pattern matched — the final
step of `get_potential_references` does not produce a value at all: the
merge begins with `input.remove(0)`, which panics on the empty vector
(modelled by `none`), instead of returning an empty list. -/
theorem c1_merge_empty_pool :
    finalizeCandidates [] = none ∧ merge_cuc_candidates [] = none :=
  ⟨rfl, rfl⟩

/-! Claim C3: the language guesser. -/

/-- The selection loop returns its current best language when no remaining
count beats the running best. -/
theorem guessLoop_const (cnt : String → Nat) (order : List String) :
    ∀ ret best, (∀ l, l ∈ order → cnt l ≤ best) →
      guessLoop cnt order ret best = ret := by
  induction order with
  | nil => intro ret best _; rfl
  | cons l rest ih =>
    intro ret best h
    simp only [guessLoop]
    rw [if_pos (h l (List.mem_cons_self l rest))]
    exact ih ret best (fun x hx => h x (List.mem_cons_of_mem l hx))

/-- The selection loop returns the unique strict maximum when that maximum
beats the running best. -/
theorem guessLoop_unique_max (cnt : String → Nat) (order : List String) :
    ∀ ret best lstar, lstar ∈ order → best < cnt lstar →
      (∀ l, l ∈ order → l ≠ lstar → cnt l < cnt lstar) →
      guessLoop cnt order ret best = lstar := by
  induction order with
  | nil => intro ret best lstar h; exact absurd h (List.not_mem_nil lstar)
  | cons l rest ih =>
    intro ret best lstar hmem hbest hmax
    simp only [guessLoop]
    by_cases hl : l = lstar
    · subst hl
      rw [if_neg (by omega)]
      apply guessLoop_const
      intro x hx
      by_cases hxl : x = l
      · subst hxl; exact le_refl _
      · exact le_of_lt (hmax x (List.mem_cons_of_mem l hx) hxl)
    · have hmem2 : lstar ∈ rest := by
        rcases List.mem_cons.mp hmem with h | h
        · exact absurd h.symm hl
        · exact h
      have hlt : cnt l < cnt lstar := hmax l (List.mem_cons_self l rest) hl
      by_cases hc : cnt l ≤ best
      · rw [if_pos hc]
        exact ih ret best lstar hmem2 hbest
          (fun x hx hxs => hmax x (List.mem_cons_of_mem l hx) hxs)
      · rw [if_neg hc]
        exact ih l (cnt l) lstar hmem2 hlt
          (fun x hx hxs => hmax x (List.mem_cons_of_mem l hx) hxs)

/-- C3 (amended): for every text and every iteration order of the candidate
hash map (a permutation of the five language codes): when every language's
function-word count is at or below the floor 5 the guesser returns the
default "en"; and when one language's count exceeds 5 and strictly exceeds
every other language's count, the guesser returns that language. When two
or more languages tie for a highest count above the floor, the result
depends on the unspecified hash-map iteration order and need not be "en"
(see the counterexample). -/
theorem c3_guess_language (text : String) (order : List String)
    (hperm : List.Perm order languageCodes) :
    ((∀ l, l ∈ languageCodes → countFor text l ≤ 5) →
        guess_page_language_from_text order text = "en")
    ∧ (∀ l, l ∈ languageCodes → 5 < countFor text l →
        (∀ m, m ∈ languageCodes → m ≠ l → countFor text m < countFor text l) →
        guess_page_language_from_text order text = l) := by
  constructor
  · intro h
    apply guessLoop_const
    intro l hl
    exact h l (hperm.mem_iff.mp hl)
  · intro l hl hgt hmax
    apply guessLoop_unique_max
    · exact hperm.mem_iff.mpr hl
    · exact hgt
    · intro m hm hne
      exact hmax m (hperm.mem_iff.mp hm) hne

theorem c3_guess_language_witness :
    guess_page_language_from_text languageCodes c3Sample = "en" :=
  (c3_guess_language c3Sample languageCodes (List.Perm.refl languageCodes)).2
    "en" (by decide) (by decide) (by decide)

/-- C3 counterexample: on a text where two languages tie for the strictly
highest count above the floor, the guesser returns the first of them in
hash-map iteration order — here "de" under a de-first order — and not the
claimed default "en". -/
theorem c3_counterexample :
    List.Perm c3Order languageCodes
      ∧ countFor c3Tie "de" = 6 ∧ countFor c3Tie "fr" = 6
      ∧ countFor c3Tie "en" = 0 ∧ countFor c3Tie "it" = 0 ∧ countFor c3Tie "es" = 0
      ∧ guess_page_language_from_text c3Order c3Tie = "de" := by
  refine ⟨List.Perm.swap ("en") ("de") ["it", "fr", "es"], ?_⟩
  refine ⟨by decide, by decide, by decide, by decide, by decide, by decide⟩

/-! Claim C4: the "described at URL" filter. -/

/-- C4 fails on the code: the final filter removes records whose CANDIDATE
property is P973 — which never occurs, since direct-website candidates
carry `property := none` and external-id candidates carry an external-id
property — so a match record produced for a statement whose own property is
P973 passes the filter and appears in the merged output. -/
theorem c4_p973_record_survives :
    c4Statement.property = "P973"
      ∧ process_statement c4Matcher (fun _ => none) c4Statement [c4Candidate] = [c4Record]
      ∧ finalizeCandidates
          (process_statement c4Matcher (fun _ => none) c4Statement [c4Candidate])
          = some [c4Record] := by
  refine ⟨rfl, by decide, by decide⟩

/-! Claim C5: label/alias pattern generation for linked-entity values. -/

/-- The escape-and-filter loop equals a map of escape-after-trim followed by
the keep-test "at least 3 bytes after escaping". -/
theorem escapeFilterLoop_eq (l : List String) :
    escapeFilterLoop l
      = (l.map (fun s => escapeRegex (trimChars s))).filter
          (fun s => 3 ≤ s.utf8ByteSize) := by
  induction l with
  | nil => rfl
  | cons a rest ih =>
    simp only [escapeFilterLoop, List.map_cons, List.filter_cons]
    by_cases h : (escapeRegex (trimChars a)).utf8ByteSize < 3
    · rw [if_pos h, ih]
      have h2 : ¬ (3 ≤ (escapeRegex (trimChars a)).utf8ByteSize) := by omega
      simp [h2]
    · rw [if_neg h, ih]
      have h2 : 3 ≤ (escapeRegex (trimChars a)).utf8ByteSize := by omega
      simp [h2]

/-- C5 (amended): in the linked-entity branch, the returned patterns are the
regex-escaped trimmed candidate strings, a candidate being discarded exactly
when its escaped trimmed form is shorter than 3 BYTES (the length test is on
the escaped byte length, not on the trimmed character count); the candidate
order is the "mul" label, then the target-language label, then the
target-language aliases. -/
theorem c5_entity_patterns (vi : WEntity) (language : String) :
    escapeFilterLoop (entityAliasCandidates vi language)
      = ((entityAliasCandidates vi language).map
            (fun s => escapeRegex (trimChars s))).filter
          (fun s => 3 ≤ s.utf8ByteSize)
    ∧ entityAliasCandidates vi language
      = ((vi.labels.filter (fun s => s.language == "mul")).map (fun s => s.value)).take 1
        ++ ((vi.labels.filter (fun s => s.language == language)).map (fun s => s.value)).take 1
        ++ (vi.aliases.filter (fun s => s.language == language)).map (fun s => s.value) := by
  refine ⟨escapeFilterLoop_eq _, ?_⟩
  cases hm : (vi.labels.filter (fun s => s.language == "mul")).map (fun s => s.value) with
  | nil =>
    cases hl : (vi.labels.filter (fun s => s.language == language)).map (fun s => s.value) with
    | nil => simp [entityAliasCandidates, hm, hl]
    | cons y ys => simp [entityAliasCandidates, hm, hl]
  | cons x xs =>
    cases hl : (vi.labels.filter (fun s => s.language == language)).map (fun s => s.value) with
    | nil => simp [entityAliasCandidates, hm, hl]
    | cons y ys => simp [entityAliasCandidates, hm, hl]

/-- C5 counterexample: the label "**" has only 2 characters after trimming,
so the claim says it is discarded; but its regex-escaped form is 4 bytes
long, so the code keeps it and returns the escaped pattern. -/
theorem c5_counterexample :
    (trimChars ("**")).data.length < 3
      ∧ get_statement_search_patterns
          (fun e => if e == "Q77" then some c5Entity else none)
          c5Statement ("en")
        = ["\\*\\*"] := by
  refine ⟨by decide, by decide⟩

/-! Claims C6 and C7: time-value pattern generation. -/

/-- C6: for a statement whose value is a time of year precision (9) that
matches the time regex, pattern generation returns exactly one pattern, the
bare year string, for every target language. -/
theorem c6_year_precision (loadEnt : String → Option WEntity)
    (stmt : EntityStatement) (language : String) (ts year month day : String)
    (hprop : refereeNoRefs.contains stmt.property = false)
    (hval : stmt.claim.mainsnak.datavalue = some (WValue.time ts 9))
    (hparse : parseTimeYMD ts = some (year, month, day)) :
    get_statement_search_patterns loadEnt stmt language = [year] := by
  unfold get_statement_search_patterns
  rw [if_neg (by rw [hprop]; simp), hval]
  simp [hparse]

theorem c6_year_precision_witness :
    get_statement_search_patterns (fun _ => none) c6Statement ("fr") = ["1990"] :=
  c6_year_precision (fun _ => none) c6Statement ("fr") ("+1990-00-00T00:00:00Z")
    ("1990") ("00") ("00") (by decide) (by decide) (by decide)

/-- The English branch of the locale-specific date formats, spelled out. -/
theorem add_locale_en (year : String) (m d : Nat) :
    add_locale_specific_dates ("en") year m d
      = [year ++ "-" ++ pad2 m ++ "-" ++ pad2 d,
         enMonthNames.getD m "" ++ " " ++ toString d ++ ", " ++ year,
         byteTake 3 (enMonthNames.getD m "") ++ " " ++ toString d ++ ", " ++ year] := by
  simp [add_locale_specific_dates]

/-- Valid month numbers name a month. -/
theorem enMonthNames_nonempty (m : Nat) (h1 : 1 ≤ m) (h2 : m ≤ 12) :
    enMonthNames.getD m "" ≠ "" := by
  interval_cases m <;> decide

/-- C7: for a statement whose value is a time of day precision (11) that
matches the time regex, English pattern generation produces at least the
ISO year-month-day form, the long-month "Month D, YYYY" form and the
abbreviated-month "Mon D, YYYY" form, each built from the statement's year
and day, with a real month name for month numbers 1 through 12. -/
theorem c7_day_precision_en (loadEnt : String → Option WEntity)
    (stmt : EntityStatement) (ts year month day : String)
    (hprop : refereeNoRefs.contains stmt.property = false)
    (hval : stmt.claim.mainsnak.datavalue = some (WValue.time ts 11))
    (hparse : parseTimeYMD ts = some (year, month, day))
    (hm1 : 1 ≤ (parseNat? month).getD 1) (hm2 : (parseNat? month).getD 1 ≤ 12) :
    (year ++ "-" ++ month ++ "-" ++ day)
        ∈ get_statement_search_patterns loadEnt stmt ("en")
      ∧ enMonthNames.getD ((parseNat? month).getD 1) "" ≠ ""
      ∧ (enMonthNames.getD ((parseNat? month).getD 1) "" ++ " "
            ++ toString ((parseNat? day).getD 1) ++ ", " ++ year)
          ∈ get_statement_search_patterns loadEnt stmt ("en")
      ∧ (byteTake 3 (enMonthNames.getD ((parseNat? month).getD 1) "") ++ " "
            ++ toString ((parseNat? day).getD 1) ++ ", " ++ year)
          ∈ get_statement_search_patterns loadEnt stmt ("en") := by
  have hpat : get_statement_search_patterns loadEnt stmt ("en")
      = (year ++ "-" ++ month ++ "-" ++ day)
        :: add_locale_specific_dates ("en") year ((parseNat? month).getD 1)
            ((parseNat? day).getD 1) := by
    unfold get_statement_search_patterns
    rw [if_neg (by rw [hprop]; simp), hval]
    simp [hparse]
  rw [hpat, add_locale_en]
  refine ⟨List.mem_cons_self _ _, enMonthNames_nonempty _ hm1 hm2, ?_, ?_⟩
  · exact List.mem_cons_of_mem _ (List.mem_cons_of_mem _ (List.mem_cons_self _ _))
  · exact List.mem_cons_of_mem _ (List.mem_cons_of_mem _
      (List.mem_cons_of_mem _ (List.mem_cons_self _ _)))

theorem c7_day_precision_en_witness :
    ("1990" ++ "-" ++ "05" ++ "-" ++ "17")
        ∈ get_statement_search_patterns (fun _ => none) c7Statement ("en")
      ∧ enMonthNames.getD ((parseNat? ("05")).getD 1) "" ≠ ""
      ∧ (enMonthNames.getD ((parseNat? ("05")).getD 1) "" ++ " "
            ++ toString ((parseNat? ("17")).getD 1) ++ ", " ++ "1990")
          ∈ get_statement_search_patterns (fun _ => none) c7Statement ("en")
      ∧ (byteTake 3 (enMonthNames.getD ((parseNat? ("05")).getD 1) "") ++ " "
            ++ toString ((parseNat? ("17")).getD 1) ++ ", " ++ "1990")
          ∈ get_statement_search_patterns (fun _ => none) c7Statement ("en") :=
  c7_day_precision_en (fun _ => none) c7Statement ("+1990-05-17T00:00:00Z")
    ("1990") ("05") ("17") (by decide) (by decide) (by decide) (by decide) (by decide)

/-! Claim C8: the statement selector. -/

/-- Loop-level characterisation of the statement selector. -/
theorem statementsNeedingRefsLoop_spec (entity : String) (claims : List WStatement) :
    (statementsNeedingRefsLoop entity claims).map (fun es => es.claim)
        = claims.filter statementEligible
      ∧ ∀ es, es ∈ statementsNeedingRefsLoop entity claims →
          es.entity = entity ∧ es.property = es.claim.mainsnak.property
            ∧ es.id = es.claim.id.getD "" := by
  induction claims with
  | nil => exact ⟨rfl, fun es h => absurd h (List.not_mem_nil es)⟩
  | cons claim rest ih =>
    by_cases hm : claim.mainsnak.property ∈ refereeNoRefs
    · have he : statementEligible claim = false := by
        simp [statementEligible, hm]
      constructor
      · rw [List.filter_cons_of_neg (by simp [he])]
        have hloop : statementsNeedingRefsLoop entity (claim :: rest)
            = statementsNeedingRefsLoop entity rest := by
          simp [statementsNeedingRefsLoop, hm]
        rw [hloop, ih.1]
      · intro es hes
        apply ih.2
        have hloop : statementsNeedingRefsLoop entity (claim :: rest)
            = statementsNeedingRefsLoop entity rest := by
          simp [statementsNeedingRefsLoop, hm]
        rwa [hloop] at hes
    · by_cases hd : claim.mainsnak.datatype = SnakDataType.externalId
          ∨ claim.mainsnak.datatype = SnakDataType.commonsMedia
      · have he : statementEligible claim = false := by
          rcases hd with h | h <;> simp [statementEligible, h]
        have hloop : statementsNeedingRefsLoop entity (claim :: rest)
            = statementsNeedingRefsLoop entity rest := by
          rcases hd with h | h <;> simp [statementsNeedingRefsLoop, hm, h]
        constructor
        · rw [List.filter_cons_of_neg (by simp [he]), hloop, ih.1]
        · intro es hes
          apply ih.2
          rwa [hloop] at hes
      · have hd1 : ¬ claim.mainsnak.datatype = SnakDataType.externalId :=
          fun h => hd (Or.inl h)
        have hd2 : ¬ claim.mainsnak.datatype = SnakDataType.commonsMedia :=
          fun h => hd (Or.inr h)
        have he : statementEligible claim = true := by
          simp [statementEligible, hm, hd1, hd2]
        have hloop : statementsNeedingRefsLoop entity (claim :: rest)
            = { entity := entity, property := claim.mainsnak.property,
                id := claim.id.getD "", claim := claim }
              :: statementsNeedingRefsLoop entity rest := by
          simp [statementsNeedingRefsLoop, hm, hd1, hd2]
        constructor
        · rw [List.filter_cons_of_pos (by simp [he]), hloop, List.map_cons, ih.1]
        · intro es hes
          rw [hloop, List.mem_cons] at hes
          rcases hes with h | h
          · rw [h]
            exact ⟨rfl, rfl, rfl⟩
          · exact ih.2 es h

/-- C8: the statement selector returns exactly those statements of the
loaded entity whose property is not in the reference-exempt allowlist
{P225, P373, P1472, P1889} and whose main snak datatype is neither
external-id nor commons-media; each returned record carries the entity id,
the statement's property and its statement id. -/
theorem c8_statement_selector (entity : String) (item : WEntity) :
    (get_statements_needing_references entity item).map (fun es => es.claim)
        = item.claims.filter statementEligible
      ∧ ∀ es, es ∈ get_statements_needing_references entity item →
          es.entity = entity ∧ es.property = es.claim.mainsnak.property
            ∧ es.id = es.claim.id.getD "" :=
  statementsNeedingRefsLoop_spec entity item.claims

/-! Claim C9: candidates already cited by a statement are skipped. -/

/-- Every record emitted by the per-statement matcher stems from a candidate
of the pool that is not yet cited by the statement, and carries that
candidate's URL. -/
theorem process_statement_mem (matcher : String → String → Option TextPart)
    (loadEnt : String → Option WEntity) (stmt : EntityStatement)
    (cands : List UrlCandidate) :
    ∀ rec, rec ∈ process_statement matcher loadEnt stmt cands →
      ∃ uc, uc ∈ cands ∧ does_statement_have_this_reference stmt uc = false
        ∧ rec.url = uc.url := by
  intro rec hrec
  unfold process_statement at hrec
  cases hid : stmt.claim.id with
  | none => rw [hid] at hrec; exact absurd hrec (List.not_mem_nil rec)
  | some sid =>
    rw [hid] at hrec
    obtain ⟨uc, hucmem, hrec2⟩ := List.mem_flatMap.mp hrec
    refine ⟨uc, hucmem, ?_⟩
    by_cases h1 : does_statement_have_this_reference stmt uc
    · rw [if_pos h1] at hrec2
      exact absurd hrec2 (List.not_mem_nil rec)
    · rw [if_neg h1] at hrec2
      refine ⟨by simpa using h1, ?_⟩
      by_cases h2 : stmt.property == "P27" && containsSubstr uc.url ("www.invaluable.com")
      · rw [if_pos h2] at hrec2
        exact absurd hrec2 (List.not_mem_nil rec)
      · rw [if_neg h2] at hrec2
        obtain ⟨pattern, _, hrec3⟩ := List.mem_flatMap.mp hrec2
        unfold matchPattern at hrec3
        by_cases h3 : (trimChars pattern).isEmpty
        · rw [if_pos h3] at hrec3
          exact absurd hrec3 (List.not_mem_nil rec)
        · rw [if_neg h3] at hrec3
          cases hmat : matcher pattern uc.text with
          | none => rw [hmat] at hrec3; exact absurd hrec3 (List.not_mem_nil rec)
          | some tp =>
            rw [hmat] at hrec3
            rw [List.mem_singleton.mp hrec3]
            rfl

/-- In a pool with pairwise distinct URLs, a candidate is determined by its
URL. -/
theorem pairwise_url_unique {cands : List UrlCandidate}
    (hdist : cands.Pairwise (fun a b => a.url ≠ b.url)) :
    ∀ a, a ∈ cands → ∀ b, b ∈ cands → a.url = b.url → a = b := by
  induction cands with
  | nil => intro a ha; exact absurd ha (List.not_mem_nil a)
  | cons x xs ih =>
    intro a ha b hb heq
    rw [List.pairwise_cons] at hdist
    rcases List.mem_cons.mp ha with h1 | h1 <;> rcases List.mem_cons.mp hb with h2 | h2
    · rw [h1, h2]
    · rw [h1] at heq
      exact absurd heq (hdist.1 b h2)
    · rw [h2] at heq
      exact absurd heq.symm (hdist.1 a h1)
    · exact ih hdist.2 a h1 b h2 heq

/-- C9: when one of the statement's existing references already cites a
candidate — a P854 snak with the candidate URL, or, for an external-id
candidate, a snak of the originating property with the external id — that
(statement, candidate) pair is skipped: no record with that candidate's URL
appears in the per-statement output (candidate URLs are pairwise distinct,
being the keys of the candidate map). -/
theorem c9_existing_reference_skip (matcher : String → String → Option TextPart)
    (loadEnt : String → Option WEntity) (stmt : EntityStatement)
    (cands : List UrlCandidate) (uc : UrlCandidate) (hmem : uc ∈ cands)
    (hdist : cands.Pairwise (fun a b => a.url ≠ b.url))
    (href : does_statement_have_this_reference stmt uc = true) :
    (process_statement matcher loadEnt stmt cands).filter
        (fun r => r.url == uc.url) = [] := by
  rw [List.filter_eq_nil_iff]
  intro rec hrec
  simp only [beq_iff_eq, decide_eq_true_eq]
  intro hurl
  obtain ⟨c, hcmem, hcref, hcurl⟩ := process_statement_mem matcher loadEnt stmt cands rec hrec
  have hceq : c = uc := pairwise_url_unique hdist c hcmem uc hmem (hcurl ▸ hurl)
  rw [hceq, href] at hcref
  exact Bool.noConfusion hcref

theorem c9_existing_reference_skip_witness :
    (process_statement c9Matcher (fun _ => none) c9Statement [c9Candidate]).filter
        (fun r => r.url == c9Candidate.url) = [] :=
  c9_existing_reference_skip c9Matcher (fun _ => none) c9Statement [c9Candidate]
    c9Candidate (by decide) (by decide) (by decide)
